import Mathlib

/-!
Formal model of the calorie-tracker storage engine (Electron main process:
IPC handlers for daily-entry CRUD, password verification, search, CSV export,
plus the zod validation schemas).

Modelling conventions:
* A `Store` is the `daily/` directory: the list of `(file name, file)` pairs in
  the order `fs.readdir` returns them.
* gray-matter files are kept structured (`RawFile` = plaintext front-matter
  header + body) instead of as flat text; `matter.stringify`/`matter` round-trip
  is modelled as the identity on this structure.
* The CryptoJS AES cipher is an external library (its code is not part of this
  repository); it is modelled from the spec (section 4.1): decrypting with the
  password the blob was encrypted under recovers the plaintext, any other
  password or a non-ciphertext payload fails with a catchable error.
* A decrypted/plain body is either the JSON serialization of a record
  (`Plain.jsonOf`) or non-JSON text (`Plain.raw`); `JSON.parse` succeeds exactly
  on the former.  The sentinel string written on decryption failure,
  `"[Unable to decrypt entry]"`, is not valid JSON, so parsing it fails.
* JS numbers are modelled as `Int`; JS string comparison (`>=`, `<=`) is the
  lexicographic order on the characters, which for the ISO `YYYY-MM-DD` date
  strings used here coincides with the ordering by `new Date(d).getTime()`
  that the code sorts by.
-/

namespace CalTrack

/-- JS `String.prototype.includes`: substring containment. -/
def containsSub (hay needle : String) : Bool :=
  hay.data.tails.any (fun t => needle.data.isPrefixOf t)

/-- JS `String.prototype.replace` with a plain-string pattern removes only the
first occurrence of the pattern (used by the handlers as
`file.replace(".md", "")`). -/
def replaceFirstAux (pat : List Char) : List Char → List Char
  | [] => []
  | c :: cs =>
    if pat.isPrefixOf (c :: cs) then (c :: cs).drop pat.length
    else c :: replaceFirstAux pat cs

/-- String wrapper for `replaceFirstAux`. -/
def replaceFirst (s pat : String) : String :=
  ⟨replaceFirstAux pat.data s.data⟩

/-- JS `f.endsWith(".md")`, the filter applied to the directory listing. -/
def isMdFile (name : String) : Bool :=
  ".md".data.isSuffixOf name.data

/-- The zod regex `^\d{4}-\d{2}-\d{2}$` on date strings. -/
def isDateFmt (s : String) : Bool :=
  match s.data with
  | [y1, y2, y3, y4, '-', m1, m2, '-', d1, d2] =>
    y1.isDigit && y2.isDigit && y3.isDigit && y4.isDigit &&
    m1.isDigit && m2.isDigit && d1.isDigit && d2.isDigit
  | _ => false

/-- The zod regex `^\d{2}:\d{2}$` on meal times. -/
def isTimeFmt (s : String) : Bool :=
  match s.data with
  | [h1, h2, ':', n1, n2] => h1.isDigit && h2.isDigit && n1.isDigit && n2.isDigit
  | _ => false

/-- FoodItemSchema shape. -/
structure FoodItem where
  name : String
  calories : Int
  protein : Int
  carbs : Int
  fats : Int
  servingSize : Option String
deriving DecidableEq

/-- MealEntrySchema shape. -/
structure MealEntry where
  id : String
  mealType : String
  time : String
  foods : List FoodItem
  notes : Option String
deriving DecidableEq

/-- ExerciseEntrySchema shape. -/
structure ExerciseEntry where
  id : String
  type : String
  caloriesBurned : Int
  duration : Option Int
  notes : Option String
deriving DecidableEq

/-- WaterSchema shape. -/
structure Water where
  glasses : Int
  ounces : Int
deriving DecidableEq

/-- DailyEntrySchema shape: the record stored one-per-date. -/
structure Entry where
  id : Option String
  date : String
  meals : List MealEntry
  water : Water
  exercise : Option ExerciseEntry
  weight : Option Int
  notes : Option String
  tags : List String
deriving DecidableEq

/-- SavedFoodSchema shape. -/
structure SavedFood where
  id : String
  name : String
  calories : Int
  protein : Int
  carbs : Int
  fats : Int
  servingSize : Option String
  category : Option String
  useCount : Int
deriving DecidableEq

/-- UserGoalsSchema shape. -/
structure UserGoals where
  dailyCalories : Int
  protein : Int
  carbs : Int
  fats : Int
  waterGlasses : Int
  targetWeight : Option Int
deriving DecidableEq

/-- WeightEntrySchema shape. -/
structure WeightEntry where
  date : String
  weight : Int
  notes : Option String
deriving DecidableEq

/-- AppDataSchema shape: the singleton settings document. -/
structure AppData where
  savedFoods : List SavedFood
  recentMeals : List MealEntry
  goals : UserGoals
  weightHistory : List WeightEntry
deriving DecidableEq

/-- A textual payload: either the JSON serialization of an `α` value, on which
`JSON.parse` succeeds, or other text, on which it throws. -/
inductive Plain (α : Type) where
  | jsonOf (a : α)
  | raw (s : String)
deriving DecidableEq

/-- Modelled from the spec: a CryptoJS AES blob (section 4.1).  CryptoJS is an
external dependency whose code is not in this repository; per the spec the
ciphertext is self-describing and decryption fails (catchably) under any
password other than the one it was encrypted with.  `Body.clear` is a body that
was written without encryption (it is not a valid ciphertext blob). -/
inductive Body (α : Type) where
  | clear (p : Plain α)
  | cipher (p : Plain α) (key : String)
deriving DecidableEq

/-- Source `encrypt(text, password)`. -/
def encrypt {α : Type} (p : Plain α) (password : String) : Body α :=
  .cipher p password

/-- Source `decrypt(encryptedText, password)`: recovers the plaintext only
under the original password; fails on a wrong password or on a payload that is
not a ciphertext blob. -/
def decrypt {α : Type} : Body α → String → Except Unit (Plain α)
  | .clear _, _ => .error ()
  | .cipher p k, password => if k = password then .ok p else .error ()

/-- `JSON.parse` on a textual payload. -/
def parseJson {α : Type} : Plain α → Except Unit α
  | .jsonOf a => .ok a
  | .raw _ => .error ()

/-- Lines 214-221 of the main process: when a session password is set, try to
decrypt the body, substituting the sentinel text on failure; with no password
the raw body text is used directly (a ciphertext body is then non-JSON text). -/
def readBody {α : Type} (pw : Option String) (b : Body α) : Plain α :=
  match pw with
  | none =>
    match b with
    | .clear p => p
    | .cipher _ _ => .raw "U2FsdGVkX19jaXBoZXJ0ZXh0"
  | some k =>
    match decrypt b k with
    | .ok p => p
    | .error _ => .raw "[Unable to decrypt entry]"

/-- The plaintext gray-matter front matter written by `save-daily-entry`:
`{ date, totalCalories, encrypted }`.  In a hand-made file the `date` key may
be absent. -/
structure Header where
  date : Option String
  totalCalories : Int
  encrypted : Bool
deriving DecidableEq

/-- One on-disk `daily/*.md` file: plaintext header plus body. -/
structure RawFile where
  header : Header
  body : Body Entry
deriving DecidableEq

/-- The `daily/` directory in `fs.readdir` order. -/
abbrev Store := List (String × RawFile)

/-- JS `data.date || entry.date`: the front-matter date wins unless it is
absent or falsy (the empty string). -/
def headerDateOr (h : Header) (bodyDate : String) : String :=
  match h.date with
  | some d => if d = "" then bodyDate else d
  | none => bodyDate

/-- Decoding one file inside `get-daily-entries` / `search-entries` /
`export-data`: read the body (decrypting when a password is set), `JSON.parse`
it, then override `id` with the file name minus its first `".md"` and `date`
with the front-matter date when that is truthy. -/
def decodeFile (pw : Option String) (name : String) (f : RawFile) :
    Except Unit Entry :=
  match parseJson (readBody pw f.body) with
  | .error e => .error e
  | .ok entry =>
    .ok { entry with
          id := some (replaceFirst name ".md"),
          date := headerDateOr f.header entry.date }

/-- The `files.filter(f => f.endsWith(".md"))` step. -/
def mdFiles (s : Store) : Store :=
  s.filter (fun p => isMdFile p.1)

/-- `Promise.all` over the per-file decodes: all succeed, or the whole batch
rejects (the rejection is caught at handler level). -/
def decodeAllAux (pw : Option String) : Store → Except Unit (List Entry)
  | [] => .ok []
  | (n, f) :: rest =>
    match decodeFile pw n f, decodeAllAux pw rest with
    | .ok e, .ok es => .ok (e :: es)
    | _, _ => .error ()

/-- Decode every `.md` file of the directory. -/
def decodeAll (pw : Option String) (s : Store) : Except Unit (List Entry) :=
  decodeAllAux pw (mdFiles s)

/-- Lexicographic less-or-equal on character lists: JS compares strings
(`<=`, `>=`) by code units, left to right. -/
def lexLe : List Char → List Char → Bool
  | [], _ => true
  | _ :: _, [] => false
  | a :: as, b :: bs =>
    if a < b then true else if b < a then false else lexLe as bs

/-- JS string `a <= b`. -/
def strLe (a b : String) : Bool :=
  lexLe a.data b.data

theorem lexLe_total (a b : List Char) : lexLe a b = true ∨ lexLe b a = true := by
  induction a generalizing b with
  | nil => exact Or.inl rfl
  | cons x xs ih =>
    cases b with
    | nil => exact Or.inr rfl
    | cons y ys =>
      rcases lt_trichotomy x y with hxy | rfl | hyx
      · exact Or.inl (by simp [lexLe, hxy])
      · rcases ih ys with h | h
        · exact Or.inl (by simp [lexLe, lt_irrefl, h])
        · exact Or.inr (by simp [lexLe, lt_irrefl, h])
      · exact Or.inr (by simp [lexLe, hyx])

theorem lexLe_trans (a b c : List Char) (h1 : lexLe a b = true)
    (h2 : lexLe b c = true) : lexLe a c = true := by
  induction a generalizing b c with
  | nil => rfl
  | cons x xs ih =>
    cases b with
    | nil => exact absurd h1 (by simp [lexLe])
    | cons y ys =>
      cases c with
      | nil => exact absurd h2 (by simp [lexLe])
      | cons z zs =>
        rcases lt_trichotomy x y with hxy | rfl | hyx
        · rcases lt_trichotomy y z with hyz | rfl | hzy
          · simp [lexLe, lt_trans hxy hyz]
          · simp [lexLe, hxy]
          · rw [lexLe, if_neg (asymm hzy), if_pos hzy] at h2
            cases h2
        · rw [lexLe, if_neg (lt_irrefl x), if_neg (lt_irrefl x)] at h1
          rcases lt_trichotomy x z with hxz | rfl | hzx
          · simp [lexLe, hxz]
          · rw [lexLe, if_neg (lt_irrefl x), if_neg (lt_irrefl x)] at h2 ⊢
            exact ih ys zs h1 h2
          · rw [lexLe, if_neg (asymm hzx), if_pos hzx] at h2
            cases h2
        · rw [lexLe, if_neg (asymm hyx), if_pos hyx] at h1
          cases h1

/-- JS `if (startDate) filtered = filtered.filter(e => e.date >= startDate)`:
an absent or empty bound imposes no constraint. -/
def startOk (sd : Option String) (e : Entry) : Bool :=
  match sd with
  | none => true
  | some d => if d = "" then true else strLe d e.date

/-- JS `if (endDate) filtered = filtered.filter(e => e.date <= endDate)`. -/
def endOk (ed : Option String) (e : Entry) : Bool :=
  match ed with
  | none => true
  | some d => if d = "" then true else strLe e.date d

/-- Date-descending comparison used by the final sort
(`new Date(b.date).getTime() - new Date(a.date).getTime()`); on the ISO date
strings involved, the `getTime` order is the lexicographic string order. -/
def dateGe (a b : Entry) : Prop :=
  strLe b.date a.date = true

instance : DecidableRel dateGe :=
  fun a b => inferInstanceAs (Decidable (strLe b.date a.date = true))

instance : IsTotal Entry dateGe :=
  ⟨fun a b => lexLe_total b.date.data a.date.data⟩

instance : IsTrans Entry dateGe :=
  ⟨fun _ _ _ h1 h2 => lexLe_trans _ _ _ h2 h1⟩

/-- The `get-daily-entries` handler: decode every file (a single hard failure
rejects the batch and the surrounding catch returns `[]`), filter by the
optional inclusive bounds, sort date-descending. -/
def getDailyEntries (pw : Option String) (s : Store) (sd ed : Option String) :
    List Entry :=
  match decodeAll pw s with
  | .error _ => []
  | .ok entries =>
    List.insertionSort dateGe ((entries.filter (startOk sd)).filter (endOk ed))

/-- One zod issue, flattened the way `validateData` reports it:
`issue.path.join(".")` and the human-readable message. -/
structure Issue where
  path : String
  msg : String
deriving DecidableEq

/-- zod `z.number().min(lo)`. -/
def minCheck (path : String) (v lo : Int) : List Issue :=
  if v < lo then
    [⟨path, "Number must be greater than or equal to " ++ toString lo⟩]
  else []

/-- zod `z.number().max(hi)`. -/
def maxCheck (path : String) (v hi : Int) : List Issue :=
  if hi < v then
    [⟨path, "Number must be less than or equal to " ++ toString hi⟩]
  else []

/-- zod `z.enum([...])`. -/
def enumCheck (path : String) (v : String) (allowed : List String) : List Issue :=
  if allowed.contains v then [] else [⟨path, "Invalid enum value"⟩]

/-- zod `z.string().regex(...)` (also used for `z.string().min(1)`). -/
def condCheck (path : String) (ok : Bool) (msg : String) : List Issue :=
  if ok then [] else [⟨path, msg⟩]

/-- Validation of an optional field: absent values produce no issues. -/
def optIssues {α : Type} (f : α → List Issue) : Option α → List Issue
  | none => []
  | some a => f a

/-- The closed `mealType` enum. -/
def mealTypes : List String := ["breakfast", "lunch", "dinner", "snack"]

/-- The closed exercise `type` enum. -/
def exerciseTypes : List String := ["2G", "3G", "Tread 50", "Weight 50", "Other"]

/-- FoodItemSchema value checks, with `pre` the dotted path of this food. -/
def foodIssues (pre : String) (f : FoodItem) : List Issue :=
  condCheck (pre ++ ".name") (f.name ≠ "") "String must contain at least 1 character(s)" ++
  minCheck (pre ++ ".calories") f.calories 0 ++
  minCheck (pre ++ ".protein") f.protein 0 ++
  minCheck (pre ++ ".carbs") f.carbs 0 ++
  minCheck (pre ++ ".fats") f.fats 0

/-- Issues of a `z.array(FoodItemSchema)`, with element indices in the path. -/
def foodListIssues (pre : String) (i : Nat) : List FoodItem → List Issue
  | [] => []
  | f :: fs => foodIssues (pre ++ "." ++ toString i) f ++ foodListIssues pre (i + 1) fs

/-- MealEntrySchema value checks. -/
def mealIssues (pre : String) (m : MealEntry) : List Issue :=
  enumCheck (pre ++ ".mealType") m.mealType mealTypes ++
  condCheck (pre ++ ".time") (isTimeFmt m.time) "Invalid" ++
  foodListIssues (pre ++ ".foods") 0 m.foods

/-- Issues of a `z.array(MealEntrySchema)`, with element indices in the path. -/
def mealListIssues (pre : String) (i : Nat) : List MealEntry → List Issue
  | [] => []
  | m :: ms => mealIssues (pre ++ "." ++ toString i) m ++ mealListIssues pre (i + 1) ms

/-- ExerciseEntrySchema value checks. -/
def exerciseIssues (e : ExerciseEntry) : List Issue :=
  enumCheck "exercise.type" e.type exerciseTypes ++
  minCheck "exercise.caloriesBurned" e.caloriesBurned 0 ++
  optIssues (fun d => minCheck "exercise.duration" d 0) e.duration

/-- DailyEntrySchema: every issue zod would collect over the record, in schema
key order (`id` and the plain string/array fields carry no value checks). -/
def dailyEntryIssues (e : Entry) : List Issue :=
  condCheck "date" (isDateFmt e.date) "Invalid" ++
  mealListIssues "meals" 0 e.meals ++
  minCheck "water.glasses" e.water.glasses 0 ++
  maxCheck "water.glasses" e.water.glasses 50 ++
  minCheck "water.ounces" e.water.ounces 0 ++
  maxCheck "water.ounces" e.water.ounces 400 ++
  optIssues exerciseIssues e.exercise ++
  optIssues (fun w => minCheck "weight" w 0 ++ maxCheck "weight" w 1000) e.weight

/-- SavedFoodSchema value checks. -/
def savedFoodIssues (pre : String) (f : SavedFood) : List Issue :=
  condCheck (pre ++ ".name") (f.name ≠ "") "String must contain at least 1 character(s)" ++
  minCheck (pre ++ ".calories") f.calories 0 ++
  minCheck (pre ++ ".protein") f.protein 0 ++
  minCheck (pre ++ ".carbs") f.carbs 0 ++
  minCheck (pre ++ ".fats") f.fats 0 ++
  minCheck (pre ++ ".useCount") f.useCount 0

/-- Issues of `z.array(SavedFoodSchema)`. -/
def savedFoodListIssues (pre : String) (i : Nat) : List SavedFood → List Issue
  | [] => []
  | f :: fs => savedFoodIssues (pre ++ "." ++ toString i) f ++ savedFoodListIssues pre (i + 1) fs

/-- UserGoalsSchema value checks. -/
def goalsIssues (g : UserGoals) : List Issue :=
  minCheck "goals.dailyCalories" g.dailyCalories 500 ++
  maxCheck "goals.dailyCalories" g.dailyCalories 10000 ++
  minCheck "goals.protein" g.protein 0 ++
  maxCheck "goals.protein" g.protein 500 ++
  minCheck "goals.carbs" g.carbs 0 ++
  maxCheck "goals.carbs" g.carbs 1000 ++
  minCheck "goals.fats" g.fats 0 ++
  maxCheck "goals.fats" g.fats 500 ++
  minCheck "goals.waterGlasses" g.waterGlasses 0 ++
  maxCheck "goals.waterGlasses" g.waterGlasses 50 ++
  optIssues (fun w => minCheck "goals.targetWeight" w 0 ++ maxCheck "goals.targetWeight" w 1000)
    g.targetWeight

/-- Issues of `z.array(WeightEntrySchema)`. -/
def weightHistoryIssues (i : Nat) : List WeightEntry → List Issue
  | [] => []
  | w :: ws =>
    (condCheck ("weightHistory." ++ toString i ++ ".date") (isDateFmt w.date) "Invalid" ++
     minCheck ("weightHistory." ++ toString i ++ ".weight") w.weight 0 ++
     maxCheck ("weightHistory." ++ toString i ++ ".weight") w.weight 1000) ++
    weightHistoryIssues (i + 1) ws

/-- AppDataSchema, in schema key order. -/
def appDataIssues (d : AppData) : List Issue :=
  savedFoodListIssues "savedFoods" 0 d.savedFoods ++
  mealListIssues "recentMeals" 0 d.recentMeals ++
  goalsIssues d.goals ++
  weightHistoryIssues 0 d.weightHistory

/-- The `issues.map(i => path + ": " + message).join(", ")` step of
`validateData`. -/
def joinIssues : List Issue → String
  | [] => ""
  | [i] => i.path ++ ": " ++ i.msg
  | i :: rest => i.path ++ ": " ++ i.msg ++ ", " ++ joinIssues rest

/-- The error string `validateData` returns on a zod failure. -/
def validationError (issues : List Issue) : String :=
  "Validation failed: " ++ joinIssues issues

/-- One file-system side effect of a handler (path only; `daily/` paths are
relative to the data directory). -/
inductive FsOp where
  | write (path : String)
  | rename (src dst : String)
  | unlink (path : String)
deriving DecidableEq

/-- The `{ success, error?, id? }` object the save handlers return. -/
structure SaveResult where
  success : Bool
  error : Option String
  id : Option String
deriving DecidableEq

/-- The `totalCalories` header field recomputed at save time:
`meals.reduce((sum, meal) => sum + meal.foods.reduce((mSum, food) =>
mSum + food.calories, 0), 0)`. -/
def totalCaloriesOf (e : Entry) : Int :=
  e.meals.foldl (fun sum m => sum + m.foods.foldl (fun mSum f => mSum + f.calories) 0) 0

/-- `fs.writeFile` on the directory model: overwrite an existing name in
place, otherwise the new file appears in the listing (modelled at the end). -/
def storeSet (s : Store) (name : String) (f : RawFile) : Store :=
  if s.any (fun p => p.1 == name) then
    s.map (fun p => if p.1 == name then (name, f) else p)
  else s ++ [(name, f)]

/-- The `save-daily-entry` handler: validate, encode (encrypting when a session
password is set), write the gray-matter file directly at `daily/{date}.md`.
The third component is the list of file-system operations performed. -/
def saveDailyEntry (pw : Option String) (s : Store) (e : Entry) :
    SaveResult × Store × List FsOp :=
  match dailyEntryIssues e with
  | [] =>
    let fileName := e.date ++ ".md"
    let body : Body Entry :=
      match pw with
      | some k => encrypt (Plain.jsonOf e) k
      | none => Body.clear (Plain.jsonOf e)
    let header : Header := ⟨some e.date, totalCaloriesOf e, pw.isSome⟩
    (⟨true, none, some e.date⟩, storeSet s fileName ⟨header, body⟩,
      [FsOp.write ("daily/" ++ fileName)])
  | issues => (⟨false, some (validationError issues), none⟩, s, [])

/-- The `save-app-data` handler: validate the full document, encrypt when a
session password is set, then write `app-data.json` directly.  Returns the
handler result, the body now stored at `app-data.json` (`none` when nothing
was written), and the file-system trace. -/
def saveAppData (pw : Option String) (d : AppData) :
    SaveResult × Option (Body AppData) × List FsOp :=
  match appDataIssues d with
  | [] =>
    let body : Body AppData :=
      match pw with
      | some k => encrypt (Plain.jsonOf d) k
      | none => Body.clear (Plain.jsonOf d)
    (⟨true, none, none⟩, some body, [FsOp.write "app-data.json"])
  | issues => (⟨false, some (validationError issues), none⟩, none, [])

/-- The `{ success, error? }` object `delete-daily-entry` returns. -/
structure DeleteResult where
  success : Bool
  error : Option String
deriving DecidableEq

/-- The `delete-daily-entry` handler: `fs.unlink` succeeds only when the file
exists; on a missing file the thrown ENOENT is caught and reported as a
failure result. -/
def deleteDailyEntry (s : Store) (entryId : String) : DeleteResult × Store :=
  let fileName := entryId ++ ".md"
  if s.any (fun p => p.1 == fileName) then
    (⟨true, none⟩, s.filter (fun p => p.1 != fileName))
  else
    (⟨false, some "Error: ENOENT: no such file or directory"⟩, s)

/-- The text predicate of `search-entries`: case-insensitive containment in the
notes or in some food name of some meal (`lowerQuery` is already lowercased). -/
def textMatch (lowerQuery : String) (e : Entry) : Bool :=
  (match e.notes with
   | some n => containsSub n.toLower lowerQuery
   | none => false) ||
  e.meals.any (fun m => m.foods.any (fun f => containsSub f.name.toLower lowerQuery))

/-- The `search-entries` handler: decode everything (same batch semantics as
`get-daily-entries`), apply the text filter when the query is non-blank, then
the tag filter when tags were supplied.  The result is not sorted: it stays in
directory order. -/
def searchEntries (pw : Option String) (s : Store) (query : String)
    (tags : List String) : List Entry :=
  match decodeAll pw s with
  | .error _ => []
  | .ok allEntries =>
    let f1 :=
      if query ≠ "" ∧ query.trim ≠ "" then
        allEntries.filter (textMatch query.toLower)
      else allEntries
    if tags ≠ [] then
      f1.filter (fun e => tags.any (fun t => e.tags.contains t))
    else f1

/-- The running totals object of the CSV export
(`{ calories: 0, protein: 0, carbs: 0, fats: 0 }`). -/
structure Totals where
  calories : Int
  protein : Int
  carbs : Int
  fats : Int
deriving DecidableEq

/-- The `entry.meals.reduce(...)` / `meal.foods.forEach(...)` accumulation of
the CSV branch. -/
def rowTotals (e : Entry) : Totals :=
  e.meals.foldl
    (fun acc m =>
      m.foods.foldl
        (fun a f =>
          ⟨a.calories + f.calories, a.protein + f.protein,
           a.carbs + f.carbs, a.fats + f.fats⟩)
        acc)
    ⟨0, 0, 0, 0⟩

/-- JS `entry.exercise?.caloriesBurned || 0`. -/
def exerciseField (e : Entry) : Int :=
  match e.exercise with
  | some ex => ex.caloriesBurned
  | none => 0

/-- JS `entry.weight || ''`: absent weight renders blank, and so does the
falsy weight `0`. -/
def weightField (e : Entry) : String :=
  match e.weight with
  | some w => if w = 0 then "" else toString w
  | none => ""

/-- One CSV data row, exactly as interpolated by the export handler. -/
def csvRow (e : Entry) : String :=
  e.date ++ "," ++ toString (rowTotals e).calories ++ "," ++
  toString (rowTotals e).protein ++ "," ++ toString (rowTotals e).carbs ++ "," ++
  toString (rowTotals e).fats ++ "," ++ toString (exerciseField e) ++ "," ++
  weightField e ++ "," ++ toString e.water.glasses

/-- The fixed CSV header line. -/
def csvHeader : String :=
  "Date,Total Calories,Protein,Carbs,Fats,Exercise Calories,Weight,Water Glasses"

/-- The `csv += ...` loop of the export handler: header line then one
newline-terminated row per entry. -/
def exportCsvString (entries : List Entry) : String :=
  entries.foldl (fun csv e => csv ++ csvRow e ++ "\n") (csvHeader ++ "\n")

/-- The CSV branch of the `export-data` handler: the same
decode-filter-sort pipeline as `get-daily-entries`, flattened to CSV text. -/
def exportCsv (pw : Option String) (s : Store) (sd ed : Option String) : String :=
  exportCsvString (getDailyEntries pw s sd ed)

/-- The `verify-password` handler, over the state it consults: the optional
`app-data.json` body and the current in-memory session password.  Returns the
handler's boolean result and the session password afterwards. -/
def verifyPassword (appFile : Option (Body AppData)) (sessionPw : Option String)
    (candidate : String) : Bool × Option String :=
  match appFile with
  | none => (true, some candidate)
  | some b =>
    match decrypt b candidate with
    | .ok p =>
      match parseJson p with
      | .ok _ => (true, some candidate)
      | .error _ => (false, sessionPw)
    | .error _ => (false, sessionPw)

/-- Number of lines of a newline-terminated text. -/
def countLines (s : String) : Nat :=
  s.data.count '\n'

theorem data_append (a b : String) : (a ++ b).data = a.data ++ b.data := rfl

theorem isPrefixOf_self_append (l t : List Char) : l.isPrefixOf (l ++ t) = true := by
  induction l with
  | nil => simp
  | cons a as ih => simp [List.isPrefixOf, ih]

theorem isMdFile_append (stem : String) : isMdFile (stem ++ ".md") = true := by
  unfold isMdFile List.isSuffixOf
  rw [data_append]
  show (['.', 'm', 'd'].reverse).isPrefixOf ((stem.data ++ ['.', 'm', 'd']).reverse) = true
  rw [List.reverse_append]
  exact isPrefixOf_self_append _ _

theorem replaceFirstAux_dotmd (xs : List Char) (h : '.' ∉ xs) :
    replaceFirstAux ['.', 'm', 'd'] (xs ++ ['.', 'm', 'd']) = xs := by
  induction xs with
  | nil => decide
  | cons c cs ih =>
    have hc : ('.' == c) = false := by
      rw [beq_eq_false_iff_ne]
      intro e
      exact h (e ▸ List.mem_cons_self c cs)
    have hrest := ih (fun hm => h (List.mem_cons_of_mem c hm))
    simp [replaceFirstAux, List.isPrefixOf, hc, hrest]

theorem replaceFirst_stem (stem : String) (h : '.' ∉ stem.data) :
    replaceFirst (stem ++ ".md") ".md" = stem := by
  unfold replaceFirst
  rw [data_append]
  show String.mk (replaceFirstAux ['.', 'm', 'd'] (stem.data ++ ['.', 'm', 'd'])) = stem
  rw [replaceFirstAux_dotmd stem.data h]

theorem isDateFmt_chars (s : String) (h : isDateFmt s = true) :
    ∀ c ∈ s.data, c.isDigit = true ∨ c = '-' := by
  unfold isDateFmt at h
  split at h
  next y1 y2 y3 y4 m1 m2 d1 d2 heq =>
    simp only [Bool.and_eq_true] at h
    intro c hc
    rw [heq] at hc
    obtain ⟨⟨⟨⟨⟨⟨⟨h1, h2⟩, h3⟩, h4⟩, h5⟩, h6⟩, h7⟩, h8⟩ := h
    simp only [List.mem_cons, List.not_mem_nil, or_false] at hc
    rcases hc with rfl | rfl | rfl | rfl | rfl | rfl | rfl | rfl | rfl | rfl
    · exact Or.inl h1
    · exact Or.inl h2
    · exact Or.inl h3
    · exact Or.inl h4
    · exact Or.inr rfl
    · exact Or.inl h5
    · exact Or.inl h6
    · exact Or.inr rfl
    · exact Or.inl h7
    · exact Or.inl h8
  next => exact absurd h (by simp)

theorem isDateFmt_no_dot (s : String) (h : isDateFmt s = true) : '.' ∉ s.data := by
  intro hm
  rcases isDateFmt_chars s h '.' hm with hd | hd
  · exact absurd hd (by decide)
  · exact absurd hd (by decide)

theorem isDateFmt_no_newline (s : String) (h : isDateFmt s = true) :
    '\n' ∉ s.data := by
  intro hm
  rcases isDateFmt_chars s h '\n' hm with hd | hd
  · exact absurd hd (by decide)
  · exact absurd hd (by decide)

theorem digitChar_ne_newline (n : Nat) : Nat.digitChar n ≠ '\n' := by
  by_cases h0 : n = 0
  · subst h0; decide
  by_cases h1 : n = 1
  · subst h1; decide
  by_cases h2 : n = 2
  · subst h2; decide
  by_cases h3 : n = 3
  · subst h3; decide
  by_cases h4 : n = 4
  · subst h4; decide
  by_cases h5 : n = 5
  · subst h5; decide
  by_cases h6 : n = 6
  · subst h6; decide
  by_cases h7 : n = 7
  · subst h7; decide
  by_cases h8 : n = 8
  · subst h8; decide
  by_cases h9 : n = 9
  · subst h9; decide
  by_cases h10 : n = 10
  · subst h10; decide
  by_cases h11 : n = 11
  · subst h11; decide
  by_cases h12 : n = 12
  · subst h12; decide
  by_cases h13 : n = 13
  · subst h13; decide
  by_cases h14 : n = 14
  · subst h14; decide
  by_cases h15 : n = 15
  · subst h15; decide
  have hstar : Nat.digitChar n = '*' := by
    unfold Nat.digitChar
    rw [if_neg h0, if_neg h1, if_neg h2, if_neg h3, if_neg h4, if_neg h5,
      if_neg h6, if_neg h7, if_neg h8, if_neg h9, if_neg h10, if_neg h11,
      if_neg h12, if_neg h13, if_neg h14, if_neg h15]
  rw [hstar]
  decide

theorem toDigitsCore_ne_newline (b fuel n : Nat) (ds : List Char)
    (h : ∀ c ∈ ds, c ≠ '\n') :
    ∀ c ∈ Nat.toDigitsCore b fuel n ds, c ≠ '\n' := by
  induction fuel generalizing n ds with
  | zero => simpa [Nat.toDigitsCore] using h
  | succ f ih =>
    intro c hc
    rw [Nat.toDigitsCore] at hc
    split at hc
    · rcases List.mem_cons.mp hc with rfl | hm
      · exact digitChar_ne_newline _
      · exact h c hm
    · refine ih _ _ ?_ c hc
      intro x hx
      rcases List.mem_cons.mp hx with rfl | hm
      · exact digitChar_ne_newline _
      · exact h x hm

theorem natRepr_ne_newline (n : Nat) : ∀ c ∈ (Nat.repr n).data, c ≠ '\n' := by
  show ∀ c ∈ Nat.toDigitsCore 10 (n + 1) n [], c ≠ '\n'
  exact toDigitsCore_ne_newline 10 (n + 1) n [] (by intro c hc; cases hc)

theorem intToString_ne_newline (i : Int) : ∀ c ∈ (toString i).data, c ≠ '\n' := by
  cases i with
  | ofNat m => exact natRepr_ne_newline m
  | negSucc m =>
    intro c hc
    have hc2 : c ∈ '-' :: (Nat.repr (m + 1)).data := hc
    rcases List.mem_cons.mp hc2 with rfl | hm
    · decide
    · exact natRepr_ne_newline (m + 1) c hm

theorem containsSub_of_infix (hay needle : String)
    (h : needle.data <:+: hay.data) : containsSub hay needle = true := by
  obtain ⟨t, hp, hs⟩ := List.infix_iff_prefix_suffix.mp h
  refine List.any_eq_true.mpr ⟨t, ?_, ?_⟩
  · exact (List.mem_tails _ _).mpr hs
  · exact List.isPrefixOf_iff_prefix.mpr hp

theorem path_infix_joinIssues (l : List Issue) (i : Issue) (hm : i ∈ l) :
    i.path.data <:+: (joinIssues l).data := by
  induction l with
  | nil => cases hm
  | cons j rest ih =>
    rcases List.mem_cons.mp hm with rfl | hm2
    · cases rest with
      | nil =>
        show i.path.data <:+: (i.path ++ ": " ++ i.msg).data
        rw [data_append, data_append]
        exact ((List.prefix_append _ _).trans (List.prefix_append _ _)).isInfix
      | cons r rs =>
        show i.path.data <:+:
          (i.path ++ ": " ++ i.msg ++ ", " ++ joinIssues (r :: rs)).data
        rw [data_append, data_append, data_append, data_append]
        refine List.IsPrefix.isInfix ?_
        exact (((List.prefix_append _ _).trans (List.prefix_append _ _)).trans
          (List.prefix_append _ _)).trans (List.prefix_append _ _)
    · cases rest with
      | nil => cases hm2
      | cons r rs =>
        have htail := ih hm2
        show i.path.data <:+:
          (j.path ++ ": " ++ j.msg ++ ", " ++ joinIssues (r :: rs)).data
        rw [data_append]
        exact htail.trans (List.suffix_append _ _).isInfix

theorem condCheck_eq_nil (path : String) (ok : Bool) (msg : String)
    (h : condCheck path ok msg = []) : ok = true := by
  unfold condCheck at h
  split at h
  · assumption
  · cases h

theorem no_newline_append (a b : String) (ha : '\n' ∉ a.data)
    (hb : '\n' ∉ b.data) : '\n' ∉ (a ++ b).data := by
  rw [data_append]
  intro hm
  rcases List.mem_append.mp hm with hx | hx
  · exact ha hx
  · exact hb hx

theorem weightField_ne_newline (e : Entry) :
    ∀ c ∈ (weightField e).data, c ≠ '\n' := by
  unfold weightField
  cases e.weight with
  | none => intro c hc; cases hc
  | some w =>
    show ∀ c ∈ (if w = 0 then "" else toString w).data, c ≠ '\n'
    split
    · intro c hc; cases hc
    · exact intToString_ne_newline w

theorem csvRow_no_newline (e : Entry) (hd : isDateFmt e.date = true) :
    '\n' ∉ (csvRow e).data := by
  have hcomma : '\n' ∉ (",".data : List Char) := by decide
  have hint : ∀ i : Int, '\n' ∉ (toString i).data :=
    fun i hm => (intToString_ne_newline i '\n' hm) rfl
  have hw : '\n' ∉ (weightField e).data :=
    fun hm => (weightField_ne_newline e '\n' hm) rfl
  unfold csvRow
  repeat' apply no_newline_append
  · exact isDateFmt_no_newline e.date hd
  · exact hcomma
  · exact hint _
  · exact hcomma
  · exact hint _
  · exact hcomma
  · exact hint _
  · exact hcomma
  · exact hint _
  · exact hcomma
  · exact hint _
  · exact hcomma
  · exact hw
  · exact hcomma
  · exact hint _

theorem countLines_csv_foldl (es : List Entry) (init : String)
    (h : ∀ e ∈ es, '\n' ∉ (csvRow e).data) :
    (es.foldl (fun csv e => csv ++ csvRow e ++ "\n") init).data.count '\n' =
      init.data.count '\n' + es.length := by
  induction es generalizing init with
  | nil => simp
  | cons e rest ih =>
    rw [List.foldl_cons, ih _ (fun x hx => h x (List.mem_cons_of_mem e hx))]
    rw [data_append, data_append, List.count_append, List.count_append]
    have hrow : (csvRow e).data.count '\n' = 0 :=
      List.count_eq_zero.mpr (h e (List.mem_cons_self e rest))
    have hnl : ("\n".data : List Char).count '\n' = 1 := by decide
    rw [hrow, hnl]
    simp [List.length_cons]
    omega

theorem exportCsv_starts_with_header (es : List Entry) :
    ∃ rest : String, exportCsvString es = csvHeader ++ "\n" ++ rest := by
  unfold exportCsvString
  suffices h : ∀ (init : String) (l : List Entry), ∃ rest : String,
      l.foldl (fun csv e => csv ++ csvRow e ++ "\n") init = init ++ rest by
    obtain ⟨rest, hr⟩ := h (csvHeader ++ "\n") es
    exact ⟨rest, hr⟩
  intro init l
  induction l generalizing init with
  | nil => exact ⟨"", by simp⟩
  | cons e rest ih =>
    obtain ⟨r, hr⟩ := ih (init ++ csvRow e ++ "\n")
    refine ⟨csvRow e ++ "\n" ++ r, ?_⟩
    rw [List.foldl_cons, hr]
    apply congrArg String.mk
    simp [data_append, List.append_assoc]

/-- Per-meal, per-food sums stated the way the spec states them. -/
def sumCalories (e : Entry) : Int :=
  (e.meals.map (fun m => (m.foods.map FoodItem.calories).sum)).sum

/-- Spec-level protein sum. -/
def sumProtein (e : Entry) : Int :=
  (e.meals.map (fun m => (m.foods.map FoodItem.protein).sum)).sum

/-- Spec-level carbs sum. -/
def sumCarbs (e : Entry) : Int :=
  (e.meals.map (fun m => (m.foods.map FoodItem.carbs).sum)).sum

/-- Spec-level fats sum. -/
def sumFats (e : Entry) : Int :=
  (e.meals.map (fun m => (m.foods.map FoodItem.fats).sum)).sum

theorem foods_foldl_totals (fs : List FoodItem) (a : Totals) :
    fs.foldl
      (fun a f =>
        ⟨a.calories + f.calories, a.protein + f.protein,
         a.carbs + f.carbs, a.fats + f.fats⟩)
      a =
    ⟨a.calories + (fs.map FoodItem.calories).sum,
     a.protein + (fs.map FoodItem.protein).sum,
     a.carbs + (fs.map FoodItem.carbs).sum,
     a.fats + (fs.map FoodItem.fats).sum⟩ := by
  induction fs generalizing a with
  | nil => simp
  | cons f fs ih => simp [ih, add_assoc]

theorem rowTotals_eq_sums (e : Entry) :
    rowTotals e = ⟨sumCalories e, sumProtein e, sumCarbs e, sumFats e⟩ := by
  unfold rowTotals sumCalories sumProtein sumCarbs sumFats
  suffices h : ∀ (ms : List MealEntry) (a : Totals),
      ms.foldl
          (fun acc m =>
            m.foods.foldl
              (fun a f =>
                ⟨a.calories + f.calories, a.protein + f.protein,
                 a.carbs + f.carbs, a.fats + f.fats⟩)
              acc)
          a =
        ⟨a.calories + (ms.map (fun m => (m.foods.map FoodItem.calories).sum)).sum,
         a.protein + (ms.map (fun m => (m.foods.map FoodItem.protein).sum)).sum,
         a.carbs + (ms.map (fun m => (m.foods.map FoodItem.carbs).sum)).sum,
         a.fats + (ms.map (fun m => (m.foods.map FoodItem.fats).sum)).sum⟩ by
    rw [h e.meals ⟨0, 0, 0, 0⟩]
    simp
  intro ms
  induction ms with
  | nil => intro a; simp
  | cons m ms ih =>
    intro a
    rw [List.foldl_cons, foods_foldl_totals, ih]
    simp [add_assoc]

theorem mdFiles_singleton (name : String) (f : RawFile) (h : isMdFile name = true) :
    mdFiles [(name, f)] = [(name, f)] := by
  simp [mdFiles, List.filter_cons, h]

theorem filter_bool_and_comm {α : Type} (l : List α) (p q : α → Bool) :
    l.filter (fun a => p a && q a) = l.filter (fun a => q a && p a) := by
  apply List.filter_congr
  intro a _
  exact Bool.and_comm _ _

theorem any_beq_filter_bne {α : Type} [DecidableEq α] (l : List (α × RawFile)) (x : α) :
    (l.filter (fun p => p.1 != x)).any (fun p => p.1 == x) = false := by
  rw [List.any_eq_false]
  intro p hp
  have h2 := (List.mem_filter.mp hp).2
  simp only [bne_iff_ne, ne_eq] at h2
  simp [h2]

/-- The combined search predicate: the AND of the optional text predicate and
the optional tag predicate, in the order `search-entries` applies them. -/
def searchPred (query : String) (tags : List String) (e : Entry) : Bool :=
  (if query ≠ "" ∧ query.trim ≠ "" then textMatch query.toLower e else true) &&
  (if tags ≠ [] then tags.any (fun t => e.tags.contains t) else true)

/-- Modelled from the spec: the CSV row the claim describes, with the weight
column blank exactly when the weight is absent. -/
def claimCsvRow (e : Entry) : String :=
  e.date ++ "," ++ toString (sumCalories e) ++ "," ++ toString (sumProtein e) ++
  "," ++ toString (sumCarbs e) ++ "," ++ toString (sumFats e) ++ "," ++
  toString (exerciseField e) ++ "," ++
  (match e.weight with
   | some w => toString w
   | none => "") ++ "," ++ toString e.water.glasses

/-- A minimal valid record for a given date (no meals, empty water). -/
def mkEntry (d : String) : Entry :=
  { id := none, date := d, meals := [], water := ⟨0, 0⟩, exercise := none,
    weight := none, notes := none, tags := [] }

/-- A stored file as `save-daily-entry` writes it for `mkEntry d` under
session password `k`. -/
def mkFile (d k : String) : RawFile :=
  ⟨⟨some d, 0, true⟩, Body.cipher (Plain.jsonOf (mkEntry d)) k⟩

/-- A small valid settings document. -/
def sampleAppData : AppData :=
  { savedFoods := [], recentMeals := [],
    goals := ⟨2000, 150, 200, 65, 8, some 180⟩, weightHistory := [] }

/-- A store with one record readable under session password `"pw"` and one
file encrypted under a different password. -/
def c2store : Store :=
  [("2026-01-01.md", mkFile "2026-01-01" "pw"),
   ("2026-01-02.md", mkFile "2026-01-02" "other")]

/-- C2 (code bug): one undecryptable file makes the whole listing come back
empty instead of degraded-plus-rest.  The decryption failure is caught and
replaced by the sentinel text `"[Unable to decrypt entry]"`, but that sentinel
is not valid JSON, so `JSON.parse` throws, `Promise.all` rejects, and the
handler's catch returns `[]` — dropping the healthy record too.  The same
store without the corrupted file lists fine. -/
theorem C2_corrupt_file_empties_listing :
    getDailyEntries (some "pw") c2store none none = [] ∧
    getDailyEntries (some "pw") [("2026-01-01.md", mkFile "2026-01-01" "pw")]
        none none =
      [{ mkEntry "2026-01-01" with id := some "2026-01-01" }] := by
  constructor
  · rfl
  · rfl

def c3entry : Entry := mkEntry "2026-03-01"

/-- C3 counterexample: saving a valid record performs a single direct write to
the canonical path `daily/2026-03-01.md`; no temporary file is written and no
rename into the canonical path ever happens, refuting the claimed
temp-file-then-rename pattern at this concrete input. -/
theorem C3_counterexample :
    (saveDailyEntry none [] c3entry).2.2 = [FsOp.write "daily/2026-03-01.md"] ∧
    ¬ ∃ tmp : String,
        FsOp.rename tmp "daily/2026-03-01.md" ∈ (saveDailyEntry none [] c3entry).2.2 := by
  have h : (saveDailyEntry none [] c3entry).2.2 = [FsOp.write "daily/2026-03-01.md"] := rfl
  refine ⟨h, ?_⟩
  rintro ⟨tmp, hmem⟩
  rw [h] at hmem
  simp at hmem

/-- C3 amended: both save handlers write directly (one `fs.writeFile`) to the
canonical path and never touch a temporary file or rename; a validation
failure performs no file-system operation at all. -/
theorem C3_amended_direct_write (pw : Option String) (s : Store) (e : Entry)
    (d : AppData) :
    (saveDailyEntry pw s e).2.2 =
      (if dailyEntryIssues e = [] then [FsOp.write ("daily/" ++ e.date ++ ".md")]
       else []) ∧
    (saveAppData pw d).2.2 =
      (if appDataIssues d = [] then [FsOp.write "app-data.json"] else []) := by
  constructor
  · unfold saveDailyEntry
    split
    next heq => rw [if_pos heq]; rfl
    next issues heq => rw [if_neg heq]
  · unfold saveAppData
    split
    next heq => rw [if_pos heq]
    next issues heq => rw [if_neg heq]

/-- C4: password verification.  With no settings document on disk, any
candidate is accepted and becomes the session password; with a document
encrypted under `k`, a candidate different from `k` fails to decrypt it, the
handler returns `false`, and the session password is left exactly as it was
(in particular still unset when it was unset). -/
theorem C4_verify_password (sess : Option String) (cand k : String)
    (p : Plain AppData) (hk : k ≠ cand) :
    verifyPassword none sess cand = (true, some cand) ∧
    verifyPassword (some (encrypt p k)) sess cand = (false, sess) := by
  constructor
  · rfl
  · simp [verifyPassword, encrypt, decrypt, hk]

/-- C4 witness: concrete bootstrap acceptance and concrete rejection of a
wrong password against a document encrypted under `"pw"`. -/
theorem C4_witness :
    verifyPassword none none "hunter2" = (true, some "hunter2") ∧
    verifyPassword (some (encrypt (Plain.jsonOf sampleAppData) "pw")) none
        "hunter2" =
      (false, none) :=
  C4_verify_password none "hunter2" "pw" (Plain.jsonOf sampleAppData) (by decide)

def c7store : Store := [("2026-01-01.md", mkFile "2026-01-01" "pw")]

/-- C7 counterexample: deleting the same date twice is not error-free.  The
first call succeeds; the second finds no file, `fs.unlink` throws ENOENT, and
the handler returns a failure result carrying an error. -/
theorem C7_counterexample :
    (deleteDailyEntry c7store "2026-01-01").1.success = true ∧
    (deleteDailyEntry (deleteDailyEntry c7store "2026-01-01").2
        "2026-01-01").1.success = false ∧
    ((deleteDailyEntry (deleteDailyEntry c7store "2026-01-01").2
        "2026-01-01").1.error).isSome = true := by
  exact ⟨rfl, rfl, rfl⟩

/-- C7 amended: `delete(date)` succeeds when the record file exists and
removes it; the immediately repeated delete then fails with an ENOENT-derived
error result (and leaves the store unchanged) — deletion is not idempotent. -/
theorem C7_amended_delete (s : Store) (eid : String)
    (h : s.any (fun p => p.1 == eid ++ ".md") = true) :
    (deleteDailyEntry s eid).1.success = true ∧
    (deleteDailyEntry (deleteDailyEntry s eid).2 eid).1.success = false ∧
    (deleteDailyEntry (deleteDailyEntry s eid).2 eid).1.error =
      some "Error: ENOENT: no such file or directory" ∧
    (deleteDailyEntry (deleteDailyEntry s eid).2 eid).2 =
      (deleteDailyEntry s eid).2 := by
  have h2 : ((s.filter (fun p => p.1 != eid ++ ".md")).any
      (fun p => p.1 == eid ++ ".md")) = false :=
    any_beq_filter_bne s (eid ++ ".md")
  unfold deleteDailyEntry
  rw [if_pos h]
  rw [if_neg (by rw [h2]; exact Bool.false_ne_true)]
  exact ⟨rfl, rfl, rfl, rfl⟩

/-- C7 witness: the amended behaviour at a concrete one-file store. -/
theorem C7_witness :
    (deleteDailyEntry c7store "2026-01-01").1.success = true ∧
    (deleteDailyEntry (deleteDailyEntry c7store "2026-01-01").2
        "2026-01-01").1.success = false ∧
    (deleteDailyEntry (deleteDailyEntry c7store "2026-01-01").2
        "2026-01-01").1.error = some "Error: ENOENT: no such file or directory" ∧
    (deleteDailyEntry (deleteDailyEntry c7store "2026-01-01").2 "2026-01-01").2 =
      (deleteDailyEntry c7store "2026-01-01").2 :=
  C7_amended_delete c7store "2026-01-01" (by decide)

/-- C5: over any store whose files all decode (to `entries`), the listing is
exactly the decoded records within the inclusive optional bounds — a
permutation of the bounds filter over `entries` — and it is sorted by date
descending. -/
theorem C5_list_range_filter (pw : Option String) (s : Store)
    (sd ed : Option String) (entries : List Entry)
    (hdec : decodeAll pw s = .ok entries) :
    (getDailyEntries pw s sd ed).Perm
      (entries.filter (fun e => startOk sd e && endOk ed e)) ∧
    List.Sorted dateGe (getDailyEntries pw s sd ed) := by
  have hg : getDailyEntries pw s sd ed =
      List.insertionSort dateGe ((entries.filter (startOk sd)).filter (endOk ed)) := by
    unfold getDailyEntries
    rw [hdec]
  rw [hg]
  constructor
  · refine (List.perm_insertionSort dateGe _).trans ?_
    rw [List.filter_filter, filter_bool_and_comm]
  · exact List.sorted_insertionSort dateGe _

def c5store : Store :=
  [("2026-01-09.md", mkFile "2026-01-09" "pw"),
   ("2026-01-10.md", mkFile "2026-01-10" "pw"),
   ("2026-01-11.md", mkFile "2026-01-11" "pw"),
   ("2026-01-12.md", mkFile "2026-01-12" "pw"),
   ("2026-01-13.md", mkFile "2026-01-13" "pw")]

def c5entries : List Entry :=
  [{ mkEntry "2026-01-09" with id := some "2026-01-09" },
   { mkEntry "2026-01-10" with id := some "2026-01-10" },
   { mkEntry "2026-01-11" with id := some "2026-01-11" },
   { mkEntry "2026-01-12" with id := some "2026-01-12" },
   { mkEntry "2026-01-13" with id := some "2026-01-13" }]

/-- C5 witness: the spec's own example — records for Jan 09..13, bounds
Jan 10..Jan 12. -/
theorem C5_witness :
    (getDailyEntries (some "pw") c5store (some "2026-01-10")
        (some "2026-01-12")).Perm
      (c5entries.filter
        (fun e => startOk (some "2026-01-10") e && endOk (some "2026-01-12") e)) ∧
    List.Sorted dateGe
      (getDailyEntries (some "pw") c5store (some "2026-01-10")
        (some "2026-01-12")) :=
  C5_list_range_filter (some "pw") c5store (some "2026-01-10")
    (some "2026-01-12") c5entries (by rfl)

def c6store : Store :=
  [("2026-01-01.md", mkFile "2026-01-01" "pw"),
   ("2026-01-02.md", mkFile "2026-01-02" "pw")]

/-- C6 counterexample: `search-entries` never sorts, so its result stays in
directory (readdir) order while `list` sorts date-descending; with an empty
query and no tags over this two-record store the two outputs differ, refuting
the claimed equality (which includes order). -/
theorem C6_counterexample :
    searchEntries (some "pw") c6store "" [] ≠
      (getDailyEntries (some "pw") c6store none none).filter (searchPred "" []) ∧
    searchEntries (some "pw") c6store "" [] =
      [{ mkEntry "2026-01-01" with id := some "2026-01-01" },
       { mkEntry "2026-01-02" with id := some "2026-01-02" }] ∧
    getDailyEntries (some "pw") c6store none none =
      [{ mkEntry "2026-01-02" with id := some "2026-01-02" },
       { mkEntry "2026-01-01" with id := some "2026-01-01" }] := by
  refine ⟨by decide, rfl, rfl⟩

/-- C6 amended: search agrees with the unbounded listing filtered by the AND
of the optional text and tag predicates as a multiset (permutation); only the
order differs — search keeps directory order instead of the listing's
date-descending order. -/
theorem C6_amended_search (pw : Option String) (s : Store) (q : String)
    (tags : List String) (entries : List Entry)
    (hdec : decodeAll pw s = .ok entries) :
    (searchEntries pw s q tags).Perm
      ((getDailyEntries pw s none none).filter (searchPred q tags)) := by
  have hl : getDailyEntries pw s none none = List.insertionSort dateGe entries := by
    unfold getDailyEntries
    rw [hdec]
    simp [startOk, endOk]
  have hperm : ((List.insertionSort dateGe entries).filter (searchPred q tags)).Perm
      (entries.filter (searchPred q tags)) :=
    (List.perm_insertionSort dateGe entries).filter _
  rw [hl]
  refine List.Perm.symm (hperm.trans ?_)
  have hs : searchEntries pw s q tags = entries.filter (searchPred q tags) := by
    unfold searchEntries
    rw [hdec]
    dsimp only
    by_cases hq : q ≠ "" ∧ q.trim ≠ "" <;> by_cases ht : tags ≠ []
    · rw [if_pos hq, if_pos ht, List.filter_filter]
      apply List.filter_congr
      intro e _
      simp [searchPred, hq, ht, Bool.and_comm]
    · rw [if_pos hq, if_neg ht]
      apply Eq.symm
      apply List.filter_congr
      intro e _
      simp [searchPred, hq, ht]
    · rw [if_neg hq, if_pos ht]
      apply List.filter_congr
      intro e _
      simp [searchPred, hq, ht]
    · rw [if_neg hq, if_neg ht]
      apply Eq.symm
      conv_rhs => rw [show entries = entries.filter (fun _ => true) from
        (List.filter_true entries).symm]
      apply List.filter_congr
      intro e _
      simp [searchPred, hq, ht]
  rw [hs]

def c6yogurtMeal : MealEntry :=
  { id := "m1", mealType := "breakfast", time := "08:00",
    foods := [{ name := "Greek Yogurt", calories := 120, protein := 15,
                carbs := 8, fats := 0, servingSize := none }],
    notes := none }

def c6e1 : Entry :=
  { mkEntry "2026-02-01" with meals := [c6yogurtMeal], tags := ["cheat-day"] }

def c6e2 : Entry := mkEntry "2026-02-02"

def c6yogurtStore : Store :=
  [("2026-02-01.md", ⟨⟨some "2026-02-01", 120, true⟩,
      Body.cipher (Plain.jsonOf c6e1) "pw"⟩),
   ("2026-02-02.md", ⟨⟨some "2026-02-02", 0, true⟩,
      Body.cipher (Plain.jsonOf c6e2) "pw"⟩)]

/-- C6 witness: the spec's yogurt example store, query `"yogurt"`, no tags. -/
theorem C6_witness :
    (searchEntries (some "pw") c6yogurtStore "yogurt" []).Perm
      ((getDailyEntries (some "pw") c6yogurtStore none none).filter
        (searchPred "yogurt" [])) :=
  C6_amended_search (some "pw") c6yogurtStore "yogurt" []
    [{ c6e1 with id := some "2026-02-01" }, { c6e2 with id := some "2026-02-02" }]
    (by rfl)

def c1entry : Entry :=
  { mkEntry "2026-01-05" with id := some "custom-id", water := ⟨1, 8⟩ }

/-- C1 counterexample: a valid record whose caller-supplied `id` differs from
its date does not round-trip to an equal record — reading it back replaces the
`id` with the file name stem (the date). -/
theorem C1_counterexample :
    dailyEntryIssues c1entry = [] ∧
    getDailyEntries (some "pw") (saveDailyEntry (some "pw") [] c1entry).2.1
        none none ≠
      [c1entry] := by
  exact ⟨rfl, by decide⟩

/-- C1 amended: for every valid record `e` and session password `p`, saving
into an empty store and listing under the same password returns exactly `e`
with its `id` replaced by its date (everything else round-trips intact);
decoding the stored file under any other password `q` fails with an error
rather than producing wrong data, and the listing under `q` returns no
entries. -/
theorem C1_amended_roundtrip (p q : String) (e : Entry)
    (hv : dailyEntryIssues e = []) (hq : q ≠ p) :
    getDailyEntries (some p) (saveDailyEntry (some p) [] e).2.1 none none =
      [{ e with id := some e.date }] ∧
    decodeFile (some q) (e.date ++ ".md")
      ⟨⟨some e.date, totalCaloriesOf e, true⟩, Body.cipher (Plain.jsonOf e) p⟩ =
      .error () ∧
    getDailyEntries (some q) (saveDailyEntry (some p) [] e).2.1 none none = [] := by
  have hv' := hv
  simp only [dailyEntryIssues, List.append_eq_nil] at hv'
  have hdate : isDateFmt e.date = true :=
    condCheck_eq_nil _ _ _ hv'.1.1.1.1.1.1.1
  have hsave : (saveDailyEntry (some p) [] e).2.1 =
      [(e.date ++ ".md",
        ⟨⟨some e.date, totalCaloriesOf e, true⟩, Body.cipher (Plain.jsonOf e) p⟩)] := by
    simp [saveDailyEntry, hv, storeSet, encrypt]
  have hdecode : decodeFile (some p) (e.date ++ ".md")
      ⟨⟨some e.date, totalCaloriesOf e, true⟩, Body.cipher (Plain.jsonOf e) p⟩ =
      .ok { e with id := some e.date } := by
    have h1 : readBody (some p) (Body.cipher (Plain.jsonOf e) p) = Plain.jsonOf e := by
      simp [readBody, decrypt]
    unfold decodeFile
    rw [h1]
    dsimp only [parseJson]
    rw [replaceFirst_stem e.date (isDateFmt_no_dot e.date hdate)]
    simp [headerDateOr]
  have hall : decodeAll (some p) [(e.date ++ ".md",
      ⟨⟨some e.date, totalCaloriesOf e, true⟩, Body.cipher (Plain.jsonOf e) p⟩)] =
      .ok [{ e with id := some e.date }] := by
    unfold decodeAll
    rw [mdFiles_singleton _ _ (isMdFile_append e.date)]
    unfold decodeAllAux
    rw [hdecode]
    rfl
  have hdecodeq : decodeFile (some q) (e.date ++ ".md")
      ⟨⟨some e.date, totalCaloriesOf e, true⟩, Body.cipher (Plain.jsonOf e) p⟩ =
      .error () := by
    have h1 : readBody (some q) (Body.cipher (Plain.jsonOf e) p) =
        Plain.raw "[Unable to decrypt entry]" := by
      simp [readBody, decrypt, Ne.symm hq]
    unfold decodeFile
    rw [h1]
    rfl
  refine ⟨?_, hdecodeq, ?_⟩
  · rw [hsave]
    unfold getDailyEntries
    rw [hall]
    dsimp only
    simp [startOk, endOk, List.insertionSort, List.orderedInsert]
  · rw [hsave]
    unfold getDailyEntries
    have hallq : decodeAll (some q) [(e.date ++ ".md",
        ⟨⟨some e.date, totalCaloriesOf e, true⟩, Body.cipher (Plain.jsonOf e) p⟩)] =
        .error () := by
      unfold decodeAll
      rw [mdFiles_singleton _ _ (isMdFile_append e.date)]
      unfold decodeAllAux
      rw [hdecodeq]
    rw [hallq]

/-- C1 witness: the amended round-trip at a concrete valid record under
password `"pw"`, with wrong password `"x"`. -/
theorem C1_witness :
    getDailyEntries (some "pw")
        (saveDailyEntry (some "pw") [] (mkEntry "2026-01-05")).2.1 none none =
      [{ mkEntry "2026-01-05" with id := some "2026-01-05" }] ∧
    decodeFile (some "x") ("2026-01-05" ++ ".md")
      ⟨⟨some "2026-01-05", totalCaloriesOf (mkEntry "2026-01-05"), true⟩,
        Body.cipher (Plain.jsonOf (mkEntry "2026-01-05")) "pw"⟩ =
      .error () ∧
    getDailyEntries (some "x")
        (saveDailyEntry (some "pw") [] (mkEntry "2026-01-05")).2.1 none none =
      [] :=
  C1_amended_roundtrip "pw" "x" (mkEntry "2026-01-05") (by rfl) (by decide)

theorem mealListIssues_mealType_mem (pre : String) (ms : List MealEntry) :
    ∀ (j i : Nat) (hi : i < ms.length),
      mealTypes.contains (ms.get ⟨i, hi⟩).mealType = false →
      (⟨pre ++ "." ++ toString (j + i) ++ ".mealType", "Invalid enum value"⟩ : Issue) ∈
        mealListIssues pre j ms := by
  induction ms with
  | nil =>
    intro j i hi
    exact absurd hi (Nat.not_lt_zero i)
  | cons m ms ih =>
    intro j i hi hbad
    cases i with
    | zero =>
      rw [Nat.add_zero]
      apply List.mem_append_left
      unfold mealIssues
      apply List.mem_append_left
      apply List.mem_append_left
      have hb : mealTypes.contains m.mealType = false := hbad
      unfold enumCheck
      rw [hb]
      exact List.mem_singleton.mpr rfl
    | succ n =>
      have hj : j + (n + 1) = (j + 1) + n := by omega
      rw [hj]
      apply List.mem_append_right
      exact ih (j + 1) n (Nat.lt_of_succ_lt_succ hi) hbad

/-- C8: when validation fails, the save handler returns `success: false` with
the message listing every collected issue, writes nothing (the store and the
file-system trace are untouched), and each issue's field path appears verbatim
inside the returned error text; moreover an out-of-range `water.glasses`
always contributes an issue whose path is `water.glasses`, and a `mealType`
outside the closed enum at meal index `i` always contributes an issue whose
path is `meals.i.mealType` — every violated field is named, not just the
first. -/
theorem C8_validation_gate (pw : Option String) (s : Store) (e : Entry)
    (h : dailyEntryIssues e ≠ []) :
    (saveDailyEntry pw s e).1.success = false ∧
    (saveDailyEntry pw s e).1.error =
      some (validationError (dailyEntryIssues e)) ∧
    (saveDailyEntry pw s e).2.1 = s ∧
    (saveDailyEntry pw s e).2.2 = [] ∧
    (∀ i ∈ dailyEntryIssues e,
      containsSub (validationError (dailyEntryIssues e)) i.path = true) ∧
    ((e.water.glasses < 0 ∨ 50 < e.water.glasses) →
      "water.glasses" ∈ (dailyEntryIssues e).map Issue.path) ∧
    (∀ (i : Nat) (hi : i < e.meals.length),
      mealTypes.contains (e.meals.get ⟨i, hi⟩).mealType = false →
      ("meals." ++ toString i ++ ".mealType") ∈
        (dailyEntryIssues e).map Issue.path) := by
  have hsave : saveDailyEntry pw s e =
      (⟨false, some (validationError (dailyEntryIssues e)), none⟩, s, []) := by
    unfold saveDailyEntry
    split
    next heq => exact absurd heq h
    next issues heq => rfl
  refine ⟨by rw [hsave], by rw [hsave], by rw [hsave], by rw [hsave], ?_, ?_, ?_⟩
  · intro i hi
    apply containsSub_of_infix
    unfold validationError
    rw [data_append]
    exact (path_infix_joinIssues (dailyEntryIssues e) i hi).trans
      (List.suffix_append _ _).isInfix
  · intro hvw
    rcases hvw with hlt | hgt
    · have hC : (⟨"water.glasses",
          "Number must be greater than or equal to " ++ toString (0 : Int)⟩ : Issue) ∈
          minCheck "water.glasses" e.water.glasses 0 := by
        unfold minCheck
        rw [if_pos hlt]
        exact List.mem_singleton.mpr rfl
      have hmem : (⟨"water.glasses",
          "Number must be greater than or equal to " ++ toString (0 : Int)⟩ : Issue) ∈
          dailyEntryIssues e := by
        unfold dailyEntryIssues
        exact List.mem_append_left _ (List.mem_append_left _ (List.mem_append_left _
          (List.mem_append_left _ (List.mem_append_left _
            (List.mem_append_right _ hC)))))
      exact List.mem_map_of_mem _ hmem
    · have hC : (⟨"water.glasses",
          "Number must be less than or equal to " ++ toString (50 : Int)⟩ : Issue) ∈
          maxCheck "water.glasses" e.water.glasses 50 := by
        unfold maxCheck
        rw [if_pos hgt]
        exact List.mem_singleton.mpr rfl
      have hmem : (⟨"water.glasses",
          "Number must be less than or equal to " ++ toString (50 : Int)⟩ : Issue) ∈
          dailyEntryIssues e := by
        unfold dailyEntryIssues
        exact List.mem_append_left _ (List.mem_append_left _ (List.mem_append_left _
          (List.mem_append_left _ (List.mem_append_right _ hC))))
      exact List.mem_map_of_mem _ hmem
  · intro i hi hbad
    have hmm := mealListIssues_mealType_mem "meals" e.meals 0 i hi hbad
    rw [Nat.zero_add] at hmm
    have hmem : (⟨"meals" ++ "." ++ toString i ++ ".mealType",
        "Invalid enum value"⟩ : Issue) ∈ dailyEntryIssues e := by
      unfold dailyEntryIssues
      exact List.mem_append_left _ (List.mem_append_left _ (List.mem_append_left _
        (List.mem_append_left _ (List.mem_append_left _
          (List.mem_append_left _ (List.mem_append_right _ hmm))))))
    exact List.mem_map_of_mem _ hmem

def c8entry : Entry :=
  { mkEntry "2026-04-01" with
    meals := [{ id := "m1", mealType := "brunch", time := "11:00",
                foods := [], notes := none }],
    water := ⟨51, 0⟩ }

/-- C8 witness: a record with `water.glasses = 51` and `mealType = "brunch"`
is rejected before any write, and both `water.glasses` and `meals.0.mealType`
are named among the reported issues. -/
theorem C8_witness :
    (saveDailyEntry (some "pw") [] c8entry).1.success = false ∧
    (saveDailyEntry (some "pw") [] c8entry).1.error =
      some (validationError (dailyEntryIssues c8entry)) ∧
    (saveDailyEntry (some "pw") [] c8entry).2.1 = [] ∧
    (saveDailyEntry (some "pw") [] c8entry).2.2 = [] ∧
    (∀ i ∈ dailyEntryIssues c8entry,
      containsSub (validationError (dailyEntryIssues c8entry)) i.path = true) ∧
    ((c8entry.water.glasses < 0 ∨ 50 < c8entry.water.glasses) →
      "water.glasses" ∈ (dailyEntryIssues c8entry).map Issue.path) ∧
    (∀ (i : Nat) (hi : i < c8entry.meals.length),
      mealTypes.contains (c8entry.meals.get ⟨i, hi⟩).mealType = false →
      ("meals." ++ toString i ++ ".mealType") ∈
        (dailyEntryIssues c8entry).map Issue.path) :=
  C8_validation_gate (some "pw") [] c8entry (by decide)

def c9entry : Entry :=
  { mkEntry "2026-05-01" with weight := some 0, water := ⟨5, 40⟩ }

/-- C9 counterexample: weight `0` is a valid stored weight (`z.number().min(0)`
admits it) but `entry.weight || ''` renders it as a blank CSV field, while the
claim's row — weight blank only when absent — renders `"0"`; the emitted row
differs from the claimed row at this valid record. -/
theorem C9_counterexample :
    dailyEntryIssues c9entry = [] ∧
    c9entry.weight = some 0 ∧
    csvRow c9entry ≠ claimCsvRow c9entry ∧
    exportCsvString [c9entry] = csvHeader ++ "\n" ++ csvRow c9entry ++ "\n" := by
  refine ⟨rfl, rfl, by decide, rfl⟩

/-- C9 amended: an export of `n` records emits exactly `n + 1`
newline-terminated lines, the text starts with the fixed header line, and each
data row is the record's date, the spec-level sums of calories, protein,
carbs and fats over all foods of all meals, the exercise calories (0 when no
exercise), the weight field (blank when the weight is absent OR zero), and the
water glasses. -/
theorem C9_amended_export (es : List Entry)
    (hv : ∀ e ∈ es, isDateFmt e.date = true) :
    countLines (exportCsvString es) = es.length + 1 ∧
    (∃ rest : String, exportCsvString es = csvHeader ++ "\n" ++ rest) ∧
    ∀ e ∈ es, csvRow e =
      e.date ++ "," ++ toString (sumCalories e) ++ "," ++ toString (sumProtein e) ++
      "," ++ toString (sumCarbs e) ++ "," ++ toString (sumFats e) ++ "," ++
      toString (exerciseField e) ++ "," ++ weightField e ++ "," ++
      toString e.water.glasses := by
  refine ⟨?_, exportCsv_starts_with_header es, ?_⟩
  · unfold countLines exportCsvString
    rw [countLines_csv_foldl es _ (fun e he => csvRow_no_newline e (hv e he))]
    have hinit : ((csvHeader ++ "\n").data.count '\n') = 1 := by decide
    rw [hinit]
    omega
  · intro e _
    unfold csvRow
    rw [rowTotals_eq_sums]

def c9mealA : MealEntry :=
  { id := "m1", mealType := "lunch", time := "12:30",
    foods := [{ name := "Sandwich", calories := 450, protein := 22, carbs := 40,
                fats := 18, servingSize := none },
              { name := "Apple", calories := 95, protein := 0, carbs := 25,
                fats := 0, servingSize := none }],
    notes := none }

def c9a : Entry :=
  { mkEntry "2026-05-02" with
    meals := [c9mealA], water := ⟨3, 24⟩, weight := some 180 }

def c9b : Entry := mkEntry "2026-05-03"

/-- C9 witness: the amended export shape at a concrete two-record list with
known meal totals. -/
theorem C9_witness :
    countLines (exportCsvString [c9a, c9b]) = [c9a, c9b].length + 1 ∧
    (∃ rest : String, exportCsvString [c9a, c9b] = csvHeader ++ "\n" ++ rest) ∧
    ∀ e ∈ [c9a, c9b], csvRow e =
      e.date ++ "," ++ toString (sumCalories e) ++ "," ++ toString (sumProtein e) ++
      "," ++ toString (sumCarbs e) ++ "," ++ toString (sumFats e) ++ "," ++
      toString (exerciseField e) ++ "," ++ weightField e ++ "," ++
      toString e.water.glasses :=
  C9_amended_export [c9a, c9b] (by decide)

def c10body : Entry := mkEntry "2020-02-02"

def c10file : RawFile := ⟨⟨some "", 0, false⟩, Body.clear (Plain.jsonOf c10body)⟩

/-- C10 counterexample: a file named `x.mdy.md` whose header carries the
(empty) date `""`.  The claim predicts the record carries the header's date
and the file name stem `x.mdy` as id; the code instead keeps the body's date
(the empty header date is falsy) and sets the id to `xy.md` — the file name
with only its FIRST `.md` removed. -/
theorem C10_counterexample :
    c10file.header.date = some "" ∧
    decodeFile none "x.mdy.md" c10file =
      .ok { c10body with id := some "xy.md", date := "2020-02-02" } ∧
    ({ c10body with id := some "xy.md", date := "2020-02-02" } : Entry) ≠
      { c10body with id := some "x.mdy", date := "" } := by
  refine ⟨rfl, rfl, by decide⟩

/-- C10 amended: whenever a file's body parses to a record `b`, the decoded
record is `b` with its id replaced by the file name minus the first `".md"`
occurrence and its date replaced by the header date when that is non-empty
(the body date is used when the header date is absent or empty); for file
names of the shape `stem ++ ".md"` where the stem contains no `'.'` — in
particular every file the save handler itself writes — the id is exactly the
stem. -/
theorem C10_amended_decode (pw : Option String) (name : String) (f : RawFile)
    (b : Entry) (hb : parseJson (readBody pw f.body) = .ok b) :
    decodeFile pw name f =
      .ok { b with
            id := some (replaceFirst name ".md"),
            date := headerDateOr f.header b.date } ∧
    (∀ d, f.header.date = some d → d ≠ "" → headerDateOr f.header b.date = d) ∧
    (∀ stem : String, '.' ∉ stem.data → name = stem ++ ".md" →
      replaceFirst name ".md" = stem) := by
  refine ⟨?_, ?_, ?_⟩
  · unfold decodeFile
    rw [hb]
  · intro d hd hne
    unfold headerDateOr
    rw [hd]
    exact if_neg hne
  · intro stem hdot hname
    rw [hname]
    exact replaceFirst_stem stem hdot

def c10goodBody : Entry := { mkEntry "1999-01-01" with notes := some "n" }

def c10goodFile : RawFile :=
  ⟨⟨some "2026-06-01", 0, false⟩, Body.clear (Plain.jsonOf c10goodBody)⟩

/-- C10 witness: a concrete file whose header date differs from the body date;
the decoded record carries the header's date and the file-name stem as id. -/
theorem C10_witness :
    decodeFile none "2026-06-01.md" c10goodFile =
      .ok { c10goodBody with
            id := some (replaceFirst "2026-06-01.md" ".md"),
            date := headerDateOr c10goodFile.header c10goodBody.date } ∧
    (∀ d, c10goodFile.header.date = some d → d ≠ "" →
      headerDateOr c10goodFile.header c10goodBody.date = d) ∧
    (∀ stem : String, '.' ∉ stem.data → "2026-06-01.md" = stem ++ ".md" →
      replaceFirst "2026-06-01.md" ".md" = stem) :=
  C10_amended_decode none "2026-06-01.md" c10goodFile c10goodBody (by rfl)

end CalTrack
